import Mathlib

/-!
Verification development for the connection-and-layout engine of a visual
block editor (rendered connections, spatial index, bump resolution,
visibility propagation, and the field validation pipeline).

JavaScript strings are modelled as lists of characters (`JStr`).  Workspace
coordinates are modelled as exact integers (`ℤ`): the source's coordinate
code uses only addition, subtraction, negation and multiplication, so the
statements below are about exact arithmetic, abstracting from IEEE-754
rounding.
-/

namespace DoodleBlocks

/-- JavaScript strings, modelled as lists of UTF-16 code units. -/
abbrev JStr := List Char

/-! ## Rendered connection state

From `Blockly.RenderedConnection` (src/unnamed/part_000): a connection has an
absolute position `(x, y)`, a `hidden` flag, and an `inDB` flag recording
membership in the per-kind spatial index.  The index itself
(`Blockly.ConnectionDB`) is not among the provided sources; per the spec it
"contains exactly the set of non-hidden connections of that kind", so its
effect on a single connection is captured by the `inDB` membership flag,
which `db.addConnection`/`db.removeConnection` set and clear. -/

structure RCState where
  x : ℤ
  y : ℤ
  hidden : Bool
  inDB : Bool
  deriving DecidableEq

/-- Source `Blockly.RenderedConnection.prototype.moveTo` (src/unnamed/part_000
lines 108-119): remove from the index if present, update the coordinates,
re-insert if not hidden. -/
def moveTo (s : RCState) (nx ny : ℤ) : RCState :=
  -- Remove it from its old location in the database (if already present).
  let s1 := if s.inDB then { s with inDB := false } else s
  let s2 := { s1 with x := nx, y := ny }
  -- Insert it into its new location in the database.
  if !s2.hidden then { s2 with inDB := true } else s2

/-- Source `Blockly.RenderedConnection.prototype.moveBy` (lines 126-128):
delegates to `moveTo`. -/
def moveBy (s : RCState) (dx dy : ℤ) : RCState :=
  moveTo s (s.x + dx) (s.y + dy)

/-- Source `Blockly.RenderedConnection.prototype.setHidden` (lines 254-261). -/
def setHidden (s : RCState) (h : Bool) : RCState :=
  let s1 := { s with hidden := h }
  if h && s1.inDB then { s1 with inDB := false }
  else if !h && !s1.inDB then { s1 with inDB := true }
  else s1

/-- A sequence of the two index-mutating operations of the public API. -/
inductive COp where
  | move (nx ny : ℤ)
  | setH (h : Bool)
  deriving DecidableEq

def applyOp (s : RCState) : COp → RCState
  | .move nx ny => moveTo s nx ny
  | .setH h => setHidden s h

def applyOps (s : RCState) (l : List COp) : RCState :=
  l.foldl applyOp s

/-- The spatial-index invariant: a connection is in the index iff it is not
hidden. -/
def rcInvariant (s : RCState) : Prop := s.inDB = !s.hidden

instance (s : RCState) : Decidable (rcInvariant s) := by
  unfold rcInvariant; infer_instance

/-! ## Bump resolution

From `Blockly.RenderedConnection.prototype.bumpAwayFrom_` (src/unnamed/part_000
lines 64-101).  The globals and block queries it reads
(`Blockly.dragMode`, `Blockly.SNAP_RADIUS`, `getRootBlock`, `isInFlyout`,
`isMovable`, `RTL`) are passed in as data; the selection raise/restore around
the move is purely visual and has no effect on the displacement. -/

/-- Movability, flyout and layout-direction data of a root block. -/
structure RootInfo where
  inFlyout : Bool
  movable : Bool
  rtl : Bool
  deriving DecidableEq

/-- An absolute connection position. -/
structure ConnPos where
  x : ℤ
  y : ℤ
  deriving DecidableEq

/-- The observable outcome of a bump: which root block moved, and by how
much. -/
inductive BumpAction where
  | none
  | moveThisRoot (dx dy : ℤ)
  | moveStaticRoot (dx dy : ℤ)
  deriving DecidableEq

/-- Source `bumpAwayFrom_`: when the root of this connection's block is immovable
the source reassigns `rootBlock` to the static side's root and replaces
`staticConnection` by `this` (setting `reverse`), so the displacement in
that branch is computed from `this` against itself. -/
def bumpAwayFrom (dragging : Bool) (snap : ℤ)
    (thisRoot staticRoot : RootInfo) (thisC staticC : ConnPos) : BumpAction :=
  if dragging then
    -- Don't move blocks around while the user is doing the same.
    .none
  else if thisRoot.inFlyout then
    -- Don't move blocks around in a flyout.
    .none
  else if thisRoot.movable then
    let dx := (staticC.x + snap) - thisC.x
    let dy := (staticC.y + snap) - thisC.y
    .moveThisRoot (if thisRoot.rtl then -dx else dx) dy
  else if staticRoot.movable then
    -- Swap the connections and move the 'static' connection instead:
    -- staticConnection = this, reverse = true.
    let dx := (thisC.x + snap) - thisC.x
    let dy := (thisC.y + snap) - thisC.y
    .moveStaticRoot (if staticRoot.rtl then -dx else dx) (-dy)
  else
    -- Can't bump an uneditable block away.
    .none

/-- The behaviour the claim describes, for comparison: displacement always
computed as (static position + snap margin) − (this position), with the
vertical component negated in the reversed branch. -/
def bumpClaimed (dragging : Bool) (snap : ℤ)
    (thisRoot staticRoot : RootInfo) (thisC staticC : ConnPos) : BumpAction :=
  if dragging ∨ thisRoot.inFlyout ∨ (!thisRoot.movable ∧ !staticRoot.movable) then
    .none
  else
    let dx := (staticC.x + snap) - thisC.x
    let dy := (staticC.y + snap) - thisC.y
    if thisRoot.movable then
      .moveThisRoot (if thisRoot.rtl then -dx else dx) dy
    else
      .moveStaticRoot (if staticRoot.rtl then -dx else dx) (-dy)

/-! ## Spatial nearest-match search

`Blockly.RenderedConnection.prototype.closest` (src/unnamed/part_000 lines
180-182) delegates to `this.dbOpposite.searchForClosest(this, maxLimit, dxy)`.
`distanceFrom` (lines 51-55) is the Euclidean distance between absolute
positions; `isConnectionAllowed` (lines 294-302) rejects a candidate farther
than the radius and otherwise defers to the base-class compatibility
predicate, which is abstracted here as a boolean function `base` on
candidates.  Distances are compared through their squares (`distSq`), which
is equivalent for nonnegative radii since the square root is monotone. -/

/-- An entry of the opposite-kind spatial index. -/
structure DBConn where
  x : ℤ
  y : ℤ
  deriving DecidableEq

/-- Square of `distanceFrom` (lines 51-55): `xDiff * xDiff + yDiff * yDiff`
before the square root. -/
def distSq (px py : ℤ) (c : DBConn) : ℤ :=
  (px - c.x) * (px - c.x) + (py - c.y) * (py - c.y)

/-- Source `isConnectionAllowed` (lines 294-302), with the distance comparison
squared: fail if the candidate is farther than `maxRadius`, else defer to
the base compatibility predicate. -/
def isConnectionAllowed (px py : ℤ) (base : DBConn → Bool)
    (cand : DBConn) (maxRadius : ℤ) : Bool :=
  if maxRadius * maxRadius < distSq px py cand then false
  else base cand

/-- A candidate is a legal match within the radius. -/
def legalWithin (px py maxR : ℤ) (base : DBConn → Bool) (c : DBConn) : Prop :=
  base c = true ∧ distSq px py c ≤ maxR * maxR

instance (px py maxR : ℤ) (base : DBConn → Bool) (c : DBConn) :
    Decidable (legalWithin px py maxR base c) := by
  unfold legalWithin; infer_instance

/-- One step of the closest-candidate scan: adopt the candidate if it is
legal, within the original radius, and strictly closer than the current
best (a later candidate at exactly the best distance is not adopted, so the
first one found wins ties). -/
def searchStep (px py maxR : ℤ) (base : DBConn → Bool)
    (acc : Option DBConn × ℤ) (cand : DBConn) : Option DBConn × ℤ :=
  if base cand && (distSq px py cand ≤ maxR * maxR) &&
      (acc.1.isNone || distSq px py cand < acc.2) then
    (some cand, distSq px py cand)
  else acc

/-- Modelled from the spec: `Blockly.ConnectionDB.prototype.searchForClosest`
is not among the provided sources.  Per the spec it scans the opposite-kind
index and "tracks the single minimum-distance legal candidate (via
`isConnectionAllowed`), tie-broken by index order (first found wins on exact
ties)", after correcting the connection's stale recorded position by the
drag offset.  The second component is the squared best distance (squared
`maxRadius` when no candidate was found). -/
def searchForClosest (px py maxR : ℤ) (base : DBConn → Bool)
    (db : List DBConn) : Option DBConn × ℤ :=
  db.foldl (searchStep px py maxR base) (none, maxR * maxR)

/-- Source `closest` (lines 180-182): search the opposite-kind index around the
connection's dragged position, i.e. its recorded position corrected by the
drag offset `(dx, dy)`. -/
def closest (cx cy dx dy maxR : ℤ) (base : DBConn → Bool)
    (db : List DBConn) : Option DBConn × ℤ :=
  searchForClosest (cx + dx) (cy + dy) maxR base db

/-- Invariant of the scan accumulator over the already-seen prefix of the
index: either no legal candidate has been seen, or the accumulator holds
the first closest legal candidate of the prefix together with its squared
distance. -/
def GoodAcc (px py maxR : ℤ) (base : DBConn → Bool) (seen : List DBConn)
    (acc : Option DBConn × ℤ) : Prop :=
  (acc = (none, maxR * maxR) ∧ ∀ c ∈ seen, ¬ legalWithin px py maxR base c) ∨
  (∃ cand pre post, seen = pre ++ cand :: post ∧
    acc = (some cand, distSq px py cand) ∧
    legalWithin px py maxR base cand ∧
    (∀ c2 ∈ pre, legalWithin px py maxR base c2 →
      distSq px py cand < distSq px py c2) ∧
    (∀ c2 ∈ seen, legalWithin px py maxR base c2 →
      distSq px py cand ≤ distSq px py c2))

/-! ## Visibility propagation: `unhideAll`

From `Blockly.RenderedConnection.prototype.unhideAll` (src/unnamed/part_000
lines 207-240).  The block tree is modelled from the spec's data model:
blocks own a list of connections and carry a `collapsed` flag and an
identifier (standing for JavaScript object identity); a connection knows its
kind, its hidden flag and the attached target block, if any.
`block.getConnections(true)`, `block.isCollapsed()` and
`connection.targetBlock()` are not among the provided sources and are
modelled from the spec: `getConnections(true)` returns all of the block's
connections, and for a collapsed block the source instead assembles the
output/next/previous connections and skips the inputs.  (The source visits
output, next, previous in that order; this model processes the stored list
order, which yields the same result because connections of output and
previous kind never contribute to the render list.) -/

inductive ConnKind where
  | outputValue
  | inputValue
  | previousStatement
  | nextStatement
  deriving DecidableEq

mutual
inductive Blk : Type where
  | mk (idOf : ℕ) (collapsed : Bool) (conns : List Cn) : Blk
inductive Cn : Type where
  | mk (kind : ConnKind) (hidden : Bool) (target : Option Blk) : Cn
end

def Blk.idOf : Blk → ℕ
  | .mk i _ _ => i

def Blk.collapsed : Blk → Bool
  | .mk _ c _ => c

def Blk.conns : Blk → List Cn
  | .mk _ _ cs => cs

def Cn.kind : Cn → ConnKind
  | .mk k _ _ => k

def Cn.hidden : Cn → Bool
  | .mk _ h _ => h

def Cn.target : Cn → Option Blk
  | .mk _ _ t => t

/-- The kinds through which `unhideAll` spiders down:
`Blockly.INPUT_VALUE` and `Blockly.NEXT_STATEMENT`. -/
def ConnKind.spiders (k : ConnKind) : Bool :=
  k = .inputValue || k = .nextStatement

mutual
/-- Source `unhideAll` (lines 207-240): unhide this connection, and for input-value
and next-statement kinds recurse into the attached block; a collapsed
attached block only has its output/next/previous connections visited.
Returns the updated connection and the ids of the leaf blocks to render
(`renderList`); when the recursion yields none but a block is attached, that
block is the one entry. -/
def cnUnhideAll : Cn → Cn × List ℕ
  | .mk kind _ none =>
    -- this.setHidden(false); nothing is attached, so the render list stays
    -- empty whether or not we may spider down.
    (.mk kind false none, [])
  | .mk kind _ (some b) =>
    if kind.spiders then
      let r := blkUnhideAll b
      (.mk kind false (some r.1), if r.2.isEmpty then [b.idOf] else r.2)
    else
      -- Only spider down for input-value and next-statement kinds.
      (.mk kind false (some b), [])

def blkUnhideAll : Blk → Blk × List ℕ
  | .mk i collapsed conns =>
    let r := connsUnhideAll collapsed conns
    (.mk i collapsed r.1, r.2)

/-- Visit a block's connection list: for a collapsed block the input-value
connections are skipped (they stay hidden). -/
def connsUnhideAll : Bool → List Cn → List Cn × List ℕ
  | _, [] => ([], [])
  | collapsed, c :: rest =>
    let rc := if collapsed = true ∧ c.kind = .inputValue then (c, ([] : List ℕ))
      else cnUnhideAll c
    let rr := connsUnhideAll collapsed rest
    (rc.1 :: rr.1, rc.2 ++ rr.2)
end

mutual
/-- The blocks `unhideAll` recurses into ("visited"), in visit order:
reference definition for stating which blocks are the leaves. -/
def cnVisitedB : Cn → List Blk
  | .mk _ _ none => []
  | .mk kind _ (some b) => if kind.spiders then b :: blkVisitedB b else []

def blkVisitedB : Blk → List Blk
  | .mk _ collapsed conns => connsVisitedB collapsed conns

def connsVisitedB : Bool → List Cn → List Blk
  | _, [] => []
  | collapsed, c :: rest =>
    (if collapsed = true ∧ c.kind = .inputValue then [] else cnVisitedB c) ++
      connsVisitedB collapsed rest
end

/-- A visited block is a leaf when the recursion visits nothing below it. -/
def blkIsLeaf (b : Blk) : Bool := (blkVisitedB b).isEmpty

/-! ## JavaScript number model

`Blockly.FieldTextInput.numberValidator` applies the external
`parseFloat`/`isNaN`/`String` functions.  They are modelled from the
ECMAScript specification, idealised to exact arithmetic: the parse grammar
(optional whitespace, sign, `Infinity`, decimal digits with an optional
fraction and exponent, longest valid prefix) is followed, a finite parse
result is represented exactly as a mantissa/power-of-ten pair, and values
are rendered as their exact terminating decimal expansion without an
exponential-notation threshold (IEEE-754 double rounding is outside the
embedding).  `parseFloat` returning `NaN` is modelled as `none`. -/

/-- The character class `\s` of JavaScript regular expressions, which also
covers the `StrWhiteSpace` prefix skipped by `parseFloat`. -/
def jsIsWhitespace (c : Char) : Bool :=
  c.toNat = 9 || c.toNat = 10 || c.toNat = 11 || c.toNat = 12 || c.toNat = 13 ||
  c.toNat = 32 || c.toNat = 0xA0 || c.toNat = 0x1680 ||
  (0x2000 ≤ c.toNat && c.toNat ≤ 0x200A) ||
  c.toNat = 0x2028 || c.toNat = 0x2029 || c.toNat = 0x202F ||
  c.toNat = 0x205F || c.toNat = 0x3000 || c.toNat = 0xFEFF

/-- A non-`NaN` JavaScript number: `finite m e` stands for the exact value
`m * 10 ^ e`, or a signed infinity. -/
inductive JsNum where
  | finite (m e : ℤ)
  | inf
  | negInf
  deriving DecidableEq

def digitsToNat (l : List Char) : ℕ :=
  l.foldl (fun a c => 10 * a + (c.toNat - '0'.toNat)) 0

/-- External `parseFloat` (ECMAScript): skip leading whitespace, read an optional
sign, then the longest prefix that is `Infinity` or a decimal literal
(`digits [. digits?] [exponent]` or `. digits [exponent]`); `none` models a
`NaN` result. -/
def jsParseFloat (s : JStr) : Option JsNum :=
  let s1 := s.dropWhile jsIsWhitespace
  let signed : Bool × JStr :=
    match s1 with
    | '+' :: r => (false, r)
    | '-' :: r => (true, r)
    | r => (false, r)
  let neg := signed.1
  let s2 := signed.2
  if ("Infinity".toList).isPrefixOf s2 then
    some (if neg then .negInf else .inf)
  else
    let ints := s2.takeWhile Char.isDigit
    let r1 := s2.dropWhile Char.isDigit
    let fracs : List Char :=
      match r1 with
      | '.' :: rr => rr.takeWhile Char.isDigit
      | _ => []
    let r2 : JStr :=
      match r1 with
      | '.' :: rr => rr.dropWhile Char.isDigit
      | _ => r1
    if ints = [] ∧ fracs = [] then none
    else
      let ex : ℤ :=
        match r2 with
        | e :: rest =>
          if e = 'e' ∨ e = 'E' then
            let esigned : Bool × JStr :=
              match rest with
              | '+' :: rr => (false, rr)
              | '-' :: rr => (true, rr)
              | rr => (false, rr)
            let eds := esigned.2.takeWhile Char.isDigit
            -- an exponent marker without digits is not part of the longest
            -- valid prefix
            if eds = [] then 0
            else if esigned.1 then -(digitsToNat eds : ℤ) else (digitsToNat eds : ℤ)
          else 0
        | [] => 0
      let mag : ℤ := (digitsToNat (ints ++ fracs) : ℤ)
      some (.finite (if neg then -mag else mag) (ex - fracs.length))

/-- Divide out trailing decimal zeros (fuelled, total): returns the reduced
number and how many zeros were removed. -/
def stripTrailingZeros : ℕ → ℕ → ℕ × ℕ
  | 0, n => (n, 0)
  | fuel + 1, n =>
    if n ≠ 0 ∧ n % 10 = 0 then
      let r := stripTrailingZeros fuel (n / 10)
      (r.1, r.2 + 1)
    else (n, 0)

/-- External `String(n)` for a JavaScript number, idealised to the exact terminating
decimal expansion of `m * 10 ^ e` in canonical form (no sign on zero, no
trailing fractional zeros). -/
def jsNumToString : JsNum → JStr
  | .inf => "Infinity".toList
  | .negInf => "-Infinity".toList
  | .finite m e =>
    if m = 0 then ['0']
    else
      let n0 := m.natAbs
      let r := stripTrailingZeros n0 n0
      let n1 := r.1
      let e1 : ℤ := e + r.2
      let ds := Nat.toDigits 10 n1
      let core : JStr :=
        if 0 ≤ e1 then ds ++ List.replicate e1.toNat '0'
        else
          let k := (-e1).toNat
          let ds2 := if ds.length ≤ k then
            List.replicate (k + 1 - ds.length) '0' ++ ds else ds
          ds2.take (ds2.length - k) ++ '.' :: ds2.drop (ds2.length - k)
      if m < 0 then '-' :: core else core

/-! ## Field validation pipeline

From `Blockly.Field` (src/unnamed/part_001) and `Blockly.FieldTextInput`
(src/core/field_textinput.js).  A JavaScript validator returns the accepted
text, a replacement text, `null` to reject, or `undefined` to leave the
text unchanged. -/

/-- Result of one validator stage: `null`, `undefined`, or a string. -/
inductive JSVal where
  | null
  | undef
  | str (s : JStr)
  deriving DecidableEq

/-- Source `Blockly.Field.prototype.callValidator` (src/unnamed/part_001 lines
308-327): the class validator runs first and may reject (`null`) or rewrite;
the user validator, when set, then receives the class-validated text and may
itself reject or rewrite. -/
def callValidator (classV : JStr → JSVal) (userV : Option (JStr → JSVal))
    (text0 : JStr) : Option JStr :=
  match classV text0 with
  | .null => none  -- Class validator rejects value.  Game over.
  | cr =>
    let text1 := match cr with
      | .str s => s
      | _ => text0
    match userV with
    | none => some text1
    | some f =>
      match f text1 with
      | .null => none  -- User validator rejects value.  Game over.
      | .undef => some text1
      | .str u => some u

/-- Source `Blockly.FieldTextInput.numberValidator` (src/core/field_textinput.js
lines 546-560): fold `O`/`o` to `0`, strip commas, then
`parseFloat(text || 0)`; `null` iff the result is `NaN`, else `String(n)`. -/
def numberValidator (text : JStr) : Option JStr :=
  -- 'O' is sometimes mistaken for '0' by inexperienced users (/O/ig).
  let t1 := text.map (fun c => if c = 'O' ∨ c = 'o' then '0' else c)
  -- Strip out thousands separators (/,/g).
  let t2 := t1.filter (fun c => c ≠ ',')
  -- parseFloat(text || 0): the empty string is falsy, so 0 is coerced to "0".
  match jsParseFloat (if t2 = [] then ['0'] else t2) with
  | none => none
  | some n => some (jsNumToString n)

/-- The O-folding and comma-stripping preprocessing of `numberValidator`,
named so the claims can refer to the "resulting string". -/
def numberPreprocess (text : JStr) : JStr :=
  (text.map (fun c => if c = 'O' ∨ c = 'o' then '0' else c)).filter
    (fun c => c ≠ ',')

/-- The validator `numberValidator` packaged as a class validator for the scenario field
("class-validator rejecting non-numeric text"). -/
def numberClassValidator (t : JStr) : JSVal :=
  match numberValidator t with
  | none => .null
  | some s => .str s

def JsNum.double : JsNum → JsNum
  | .finite m e => .finite (2 * m) e
  | .inf => .inf
  | .negInf => .negInf

/-- The scenario's user validator: doubles numeric values, rejects the
rest. -/
def doublingValidator (t : JStr) : JSVal :=
  match jsParseFloat t with
  | none => .null
  | some n => .str (jsNumToString n.double)

/-- The state of a text-input field that the validation and commit protocol
touches.  `hasSourceBlock` is whether the field is attached to a block,
`eventsEnabled` models `Blockly.Events.isEnabled()`. -/
structure Field where
  text : JStr
  hasSourceBlock : Bool
  eventsEnabled : Bool
  classV : JStr → JSVal
  userV : Option (JStr → JSVal)

/-- A fired `Blockly.Events.Change` notification: old and new value. -/
abbrev ChangeEv := JStr × JStr

/-- Source `Blockly.FieldTextInput.prototype.setText` (src/core/field_textinput.js
lines 140-155): no-op on an unchanged text, else fire a change event (when
attached and events are enabled) and store the text. -/
def ftiSetText (f : Field) (newText : JStr) : Field × List ChangeEv :=
  if newText = f.text then (f, [])
  else
    let evs := if f.hasSourceBlock ∧ f.eventsEnabled then [(f.text, newText)] else []
    ({ f with text := newText }, evs)

/-- Source `Blockly.Field.prototype.setValue` (src/unnamed/part_001 lines 607-621)
as inherited by a text-input field: `getValue()` is `getText()`, and
`this.setText` dispatches to the `FieldTextInput` override above. -/
def fieldSetValue (f : Field) (newValue : Option JStr) : Field × List ChangeEv :=
  match newValue with
  | none => (f, [])  -- No change if null.
  | some v =>
    if f.text = v then (f, [])
    else
      let ev1 := if f.hasSourceBlock ∧ f.eventsEnabled then [(f.text, v)] else []
      let r := ftiSetText f v
      (r.1, ev1 ++ r.2)

/-- Source `Blockly.FieldTextInput.prototype.setValue` (src/core/field_textinput.js
lines 121-134): run the validation pipeline, but on rejection (`null`) keep
the raw value — "we still want to display the illegal result". -/
def ftiSetValue (f : Field) (newValue : Option JStr) : Field × List ChangeEv :=
  match newValue with
  | none => (f, [])  -- No change if null.
  | some v =>
    let v2 := if f.hasSourceBlock then
        match callValidator f.classV f.userV v with
        | none => v
        | some t => t
      else v
    fieldSetValue f (some v2)

/-- The commit closure of
`Blockly.FieldTextInput.prototype.widgetDispose_` (src/core/field_textinput.js
lines 473-518), restricted to its value effect: validate the editor's text;
on rejection fall back to the editor's pre-edit `defaultValue`; write the
outcome back through `setText`.  (DOM teardown, animation and the optional
`onFinishEditing_` hook have no effect on the stored value.) -/
def widgetDispose (f : Field) (inputValue defaultValue : JStr) :
    Field × List ChangeEv :=
  let text := if f.hasSourceBlock then
      match callValidator f.classV f.userV inputValue with
      | none => defaultValue  -- Invalid edit.
      | some t1 => t1
    else inputValue
  ftiSetText f text

/-- C6 uses this scenario field: class validator `numberValidator`, user
validator doubling numeric values, attached and with events enabled. -/
def doubleNumberField (t0 : JStr) : Field :=
  ⟨t0, true, true, numberClassValidator, some doublingValidator⟩

/-! ## Display text

`Blockly.Field.prototype.getDisplayText_` (src/unnamed/part_001 lines
506-523). -/

def NBSP : Char := Char.ofNat 0xA0

/-- The right-to-left mark appended in RTL mode. -/
def RLM : Char := Char.ofNat 0x200F

def ELLIPSIS : Char := Char.ofNat 0x2026

/-- Source `getDisplayText_`: empty text displays as a non-breaking space; text
longer than `maxDisplayLength` is truncated to its first
`maxDisplayLength − 2` characters plus an ellipsis; whitespace becomes
non-breaking spaces; RTL appends a right-to-left mark.  (JavaScript's
`substring(0, max - 2)` clamps a negative bound to `0`, as truncated `ℕ`
subtraction does.) -/
def getDisplayText (text : JStr) (maxDisplayLength : ℕ) (rtl : Bool) : JStr :=
  if text = [] then [NBSP]  -- Prevent the field from disappearing if empty.
  else
    let t1 := if maxDisplayLength < text.length then
        text.take (maxDisplayLength - 2) ++ [ELLIPSIS]
      else text
    let t2 := t1.map (fun c => if jsIsWhitespace c then NBSP else c)
    if rtl then t2 ++ [RLM] else t2

theorem moveTo_invariant (s : RCState) (nx ny : ℤ) :
    rcInvariant (moveTo s nx ny) := by
  simp only [rcInvariant, moveTo]
  cases hh : s.hidden <;> cases hd : s.inDB <;> simp [hh, hd]

theorem setHidden_invariant (s : RCState) (h : Bool) :
    rcInvariant (setHidden s h) := by
  simp only [rcInvariant, setHidden]
  cases h <;> cases hd : s.inDB <;> simp [hd]

theorem applyOp_invariant (s : RCState) (o : COp) :
    rcInvariant (applyOp s o) := by
  cases o with
  | move nx ny => exact moveTo_invariant s nx ny
  | setH h => exact setHidden_invariant s h

theorem applyOps_invariant (s : RCState) (l : List COp)
    (h : rcInvariant s ∨ l ≠ []) : rcInvariant (applyOps s l) := by
  induction l generalizing s with
  | nil =>
    simpa [applyOps] using h.resolve_right (by simp)
  | cons o rest ih =>
    simp only [applyOps, List.foldl_cons]
    rcases rest with _ | ⟨o2, rest2⟩
    · simpa [applyOps] using applyOp_invariant s o
    · exact ih (applyOp s o) (Or.inr (by simp))

theorem moveTo_eq (s : RCState) (nx ny : ℤ) :
    moveTo s nx ny = ⟨nx, ny, s.hidden, !s.hidden⟩ := by
  simp only [moveTo]
  cases hh : s.hidden <;> cases hd : s.inDB <;> simp [hh, hd]

/-- C2 (counterexample): on a hidden connection — a state reached by any
call of `setHidden true` — the pair `setHidden true; setHidden false` does
not restore index membership: the connection was absent from the index
before the pair and is present after it. -/
theorem setHidden_pair_not_restore :
    (setHidden ⟨0, 0, false, true⟩ true).inDB = false ∧
      (setHidden
        (setHidden (setHidden ⟨(0 : ℤ), (0 : ℤ), false, true⟩ true) true)
        false).inDB = true := by
  constructor <;> rfl

/-- C2 (amended): after any nonempty sequence of `moveTo`/`setHidden`
operations (or any sequence from a state satisfying the invariant) a
connection is in the spatial index exactly when it is not hidden; and
`setHidden true` followed by `setHidden false` restores the full state —
index membership included — provided the connection was not hidden (hence,
by the invariant, in the index) before the pair. -/
theorem spatial_index_membership :
    (∀ (s : RCState) (l : List COp), rcInvariant s ∨ l ≠ [] →
      rcInvariant (applyOps s l)) ∧
    (∀ s : RCState, s.hidden = false → s.inDB = true →
      setHidden (setHidden s true) false = s) := by
  refine ⟨fun s l h => applyOps_invariant s l h, fun s hh hd => ?_⟩
  cases s with
  | mk x y hidden inDB =>
    cases hh
    cases hd
    rfl

/-- C2 (witness): the amended statement at a concrete state and sequence. -/
theorem spatial_index_membership_witness :
    rcInvariant (applyOps ⟨5, 6, true, true⟩ [.setH false, .move 1 2]) ∧
      setHidden (setHidden ⟨(3 : ℤ), (4 : ℤ), false, true⟩ true) false
        = ⟨3, 4, false, true⟩ :=
  ⟨spatial_index_membership.1 _ _ (Or.inr (by simp)),
    spatial_index_membership.2 _ rfl rfl⟩

/-- C7: `moveBy dx dy` followed by `moveBy (-dx) (-dy)` restores both the
connection's absolute position and its index placement exactly, for any
connection satisfying the index invariant (which every `moveTo`/`setHidden`
establishes). -/
theorem moveBy_roundtrip (s : RCState) (dx dy : ℤ) (h : rcInvariant s) :
    moveBy (moveBy s dx dy) (-dx) (-dy) = s := by
  cases s with
  | mk x y hidden inDB =>
    simp only [rcInvariant] at h
    subst h
    simp only [moveBy, moveTo_eq]
    congr 1 <;> [skip; skip] <;> omega

/-- C7 (witness): the round trip at a concrete connection and offset. -/
theorem moveBy_roundtrip_witness :
    moveBy (moveBy ⟨1, 2, false, true⟩ 3 (-4)) (-3) (-(-4)) =
      (⟨1, 2, false, true⟩ : RCState) :=
  moveBy_roundtrip ⟨1, 2, false, true⟩ 3 (-4) (by decide)

/-- C3 (counterexample): with this connection's root immovable and the
static side's root movable, the source moves the static side's root by the
fixed vector `(snap, -snap)` — because it first replaces `staticConnection`
by `this` — and not by the claim's displacement
`((static + snap) - this, -((static + snap) - this))`. -/
theorem bumpAwayFrom_ne_claimed :
    bumpAwayFrom false 15 ⟨false, false, false⟩ ⟨false, true, false⟩
        ⟨0, 0⟩ ⟨100, 50⟩ = .moveStaticRoot 15 (-15) ∧
    bumpClaimed false 15 ⟨false, false, false⟩ ⟨false, true, false⟩
        ⟨0, 0⟩ ⟨100, 50⟩ = .moveStaticRoot 115 (-65) ∧
    bumpAwayFrom false 15 ⟨false, false, false⟩ ⟨false, true, false⟩
        ⟨0, 0⟩ ⟨100, 50⟩ ≠
      bumpClaimed false 15 ⟨false, false, false⟩ ⟨false, true, false⟩
        ⟨0, 0⟩ ⟨100, 50⟩ := by
  refine ⟨rfl, rfl, by decide⟩

/-- C3 (amended): `bumpAwayFrom_` does nothing during a drag, in a flyout,
or when both roots are immovable; with a movable own root it moves that
root by `(static + snap) - this` (x negated for RTL); with an immovable own
root but movable static root it moves the static side's root by the fixed
vector `(snap, -snap)` (x negated for the moved root's RTL), independent of
the static connection's position. -/
theorem bumpAwayFrom_characterization (dragging : Bool) (snap : ℤ)
    (thisRoot staticRoot : RootInfo) (thisC staticC : ConnPos) :
    (dragging = true →
      bumpAwayFrom dragging snap thisRoot staticRoot thisC staticC = .none) ∧
    (thisRoot.inFlyout = true →
      bumpAwayFrom dragging snap thisRoot staticRoot thisC staticC = .none) ∧
    (dragging = false → thisRoot.inFlyout = false → thisRoot.movable = true →
      bumpAwayFrom dragging snap thisRoot staticRoot thisC staticC =
        .moveThisRoot
          (if thisRoot.rtl then -(staticC.x + snap - thisC.x)
            else staticC.x + snap - thisC.x)
          (staticC.y + snap - thisC.y)) ∧
    (dragging = false → thisRoot.inFlyout = false → thisRoot.movable = false →
      staticRoot.movable = true →
      bumpAwayFrom dragging snap thisRoot staticRoot thisC staticC =
        .moveStaticRoot (if staticRoot.rtl then -snap else snap) (-snap)) ∧
    (dragging = false → thisRoot.inFlyout = false → thisRoot.movable = false →
      staticRoot.movable = false →
      bumpAwayFrom dragging snap thisRoot staticRoot thisC staticC = .none) := by
  refine ⟨?_, ?_, ?_, ?_, ?_⟩ <;> intros <;>
    simp_all [bumpAwayFrom, add_sub_cancel_left]

/-- C3 (witness): the reversed-bump branch at a concrete input. -/
theorem bumpAwayFrom_characterization_witness :
    bumpAwayFrom false 15 ⟨false, false, false⟩ ⟨false, true, false⟩
        ⟨0, 0⟩ ⟨100, 50⟩ = .moveStaticRoot 15 (-15) := by
  have h := (bumpAwayFrom_characterization false 15 ⟨false, false, false⟩
    ⟨false, true, false⟩ ⟨0, 0⟩ ⟨100, 50⟩).2.2.2.1 rfl rfl rfl rfl
  simpa using h

/-- C9 (counterexample): for an RTL field the displayed text additionally
carries the right-to-left mark, so a truncated display has length
`maxDisplayLength`, not `maxDisplayLength - 1` as claimed for every field. -/
theorem getDisplayText_rtl_not_claimed :
    (getDisplayText "abcde".toList 4 true).length ≠ 4 - 1 := by
  decide

/-- C9 (amended): for a field with `maxDisplayLength ≥ 2`: empty text
displays as one non-breaking space; longer-than-max text displays as the
whitespace-replaced first `maxDisplayLength - 2` characters followed by one
ellipsis, total length `maxDisplayLength - 1`; text within the limit
displays untruncated with whitespace replaced by non-breaking spaces — all
for LTR fields, an RTL field's display appending one right-to-left mark to
the LTR display of nonempty text. -/
theorem getDisplayText_spec (text : JStr) (maxLen : ℕ) (h2 : 2 ≤ maxLen) :
    (text = [] → ∀ rtl, getDisplayText text maxLen rtl = [NBSP]) ∧
    (text ≠ [] → maxLen < text.length →
      getDisplayText text maxLen false =
        (text.take (maxLen - 2)).map
          (fun c => if jsIsWhitespace c then NBSP else c) ++ [ELLIPSIS] ∧
      (getDisplayText text maxLen false).length = maxLen - 1) ∧
    (text ≠ [] → text.length ≤ maxLen →
      getDisplayText text maxLen false =
        text.map (fun c => if jsIsWhitespace c then NBSP else c)) ∧
    (text ≠ [] →
      getDisplayText text maxLen true =
        getDisplayText text maxLen false ++ [RLM]) := by
  refine ⟨?_, ?_, ?_, ?_⟩
  · rintro rfl rtl
    rfl
  · intro hne hlt
    have hell : jsIsWhitespace ELLIPSIS = false := by decide
    have heq : getDisplayText text maxLen false =
        (text.take (maxLen - 2)).map
          (fun c => if jsIsWhitespace c then NBSP else c) ++ [ELLIPSIS] := by
      simp [getDisplayText, hne, hlt, hell]
    refine ⟨heq, ?_⟩
    rw [heq]
    simp only [List.length_append, List.length_map, List.length_take,
      List.length_singleton]
    omega
  · intro hne hle
    have : ¬ maxLen < text.length := not_lt.mpr hle
    simp [getDisplayText, hne, this]
  · intro hne
    by_cases hlt : maxLen < text.length <;> simp [getDisplayText, hne, hlt]

/-- C9 (witness): the amended statement at a concrete field text. -/
theorem getDisplayText_spec_witness :
    getDisplayText "hello world".toList 6 false =
      ("hell".toList.map (fun c => if jsIsWhitespace c then NBSP else c)
        ++ [ELLIPSIS]) ∧
    (getDisplayText "hello world".toList 6 false).length = 5 :=
  ((getDisplayText_spec "hello world".toList 6 (by decide)).2.1
    (by decide) (by decide))

/-- C5: `callValidator` runs the class validator first and returns `null`
at once when it rejects; otherwise the (possibly class-rewritten) text is
passed to the user validator when one is set, whose `null` also rejects;
each stage's string result rewrites the text in order, and `undefined`
leaves it unchanged. -/
theorem callValidator_spec (classV : JStr → JSVal)
    (userV : Option (JStr → JSVal)) (t : JStr) :
    (classV t = .null → callValidator classV userV t = none) ∧
    (∀ s, classV t = .str s →
      (userV = none → callValidator classV userV t = some s) ∧
      (∀ f, userV = some f →
        (f s = .null → callValidator classV userV t = none) ∧
        (f s = .undef → callValidator classV userV t = some s) ∧
        (∀ u, f s = .str u → callValidator classV userV t = some u))) ∧
    (classV t = .undef →
      (userV = none → callValidator classV userV t = some t) ∧
      (∀ f, userV = some f →
        (f t = .null → callValidator classV userV t = none) ∧
        (f t = .undef → callValidator classV userV t = some t) ∧
        (∀ u, f t = .str u → callValidator classV userV t = some u))) := by
  refine ⟨fun h => by simp [callValidator, h], fun s hs => ⟨?_, ?_⟩,
    fun hu => ⟨?_, ?_⟩⟩
  · rintro rfl
    simp [callValidator, hs]
  · rintro f rfl
    refine ⟨fun hf => ?_, fun hf => ?_, fun u hf => ?_⟩ <;>
      simp [callValidator, hs, hf]
  · rintro rfl
    simp [callValidator, hu]
  · rintro f rfl
    refine ⟨fun hf => ?_, fun hf => ?_, fun u hf => ?_⟩ <;>
      simp [callValidator, hu, hf]

/-- C5 (witness): a class rewrite chained into a user rewrite at concrete
validators. -/
theorem callValidator_spec_witness :
    callValidator (fun _ => JSVal.str "a".toList)
      (some (fun s => JSVal.str (s ++ s))) "x".toList =
      some ("a".toList ++ "a".toList) :=
  (((callValidator_spec (fun _ => JSVal.str "a".toList)
      (some (fun s => JSVal.str (s ++ s))) "x".toList).2.1 "a".toList
      rfl).2 (fun s => JSVal.str (s ++ s)) rfl).2.2 ("a".toList ++ "a".toList)
      rfl

/-- C8: when the validation pipeline rejects a non-null proposed value (and
the field is attached to a block), `FieldTextInput.setValue` does not abort:
the raw value is stored as the field's text, and — when it differs from the
old value and events are enabled — a change notification carrying the raw
value is fired. -/
theorem ftiSetValue_stores_rejected (f : Field) (v : JStr)
    (hsb : f.hasSourceBlock = true)
    (hrej : callValidator f.classV f.userV v = none)
    (hne : v ≠ f.text) :
    (ftiSetValue f (some v)).1.text = v ∧
    (f.eventsEnabled = true → (f.text, v) ∈ (ftiSetValue f (some v)).2) := by
  have hne2 : ¬ f.text = v := fun h => hne h.symm
  constructor
  · simp [ftiSetValue, fieldSetValue, ftiSetText, hsb, hrej, hne2, hne]
  · intro hev
    simp [ftiSetValue, fieldSetValue, ftiSetText, hsb, hrej, hne2, hne, hev]

/-- C8 (witness): a raw rejected value stored at a concrete field whose
class validator rejects everything. -/
theorem ftiSetValue_stores_rejected_witness :
    (ftiSetValue ⟨"x".toList, true, true, fun _ => JSVal.null, none⟩
      (some "bad".toList)).1.text = "bad".toList ∧
    (true = true → ("x".toList, "bad".toList) ∈
      (ftiSetValue ⟨"x".toList, true, true, fun _ => JSVal.null, none⟩
        (some "bad".toList)).2) :=
  ftiSetValue_stores_rejected
    ⟨"x".toList, true, true, fun _ => JSVal.null, none⟩ "bad".toList
    rfl rfl (by decide)

/-- C6: on commit the value written back is the final validated text when
validation succeeds and the editor's pre-edit default when it returns
`null`; a change notification is emitted only when the stored value
actually changed; and in the numeric-doubling scenario committing "21"
stores "42" while committing "abc" restores the pre-edit default. -/
theorem widgetDispose_commit_spec :
    (∀ (f : Field) (iv dv : JStr), f.hasSourceBlock = true →
      (∀ t1, callValidator f.classV f.userV iv = some t1 →
        (widgetDispose f iv dv).1.text = t1) ∧
      (callValidator f.classV f.userV iv = none →
        (widgetDispose f iv dv).1.text = dv)) ∧
    (∀ (f : Field) (iv dv : JStr),
      (widgetDispose f iv dv).2 ≠ [] →
        (widgetDispose f iv dv).1.text ≠ f.text) ∧
    (widgetDispose (doubleNumberField "21".toList) "21".toList
      "1".toList).1.text = "42".toList ∧
    (widgetDispose (doubleNumberField "abc".toList) "abc".toList
      "1".toList).1.text = "1".toList := by
  refine ⟨fun f iv dv hsb => ⟨fun t1 hv => ?_, fun hv => ?_⟩,
    fun f iv dv hne => ?_, rfl, rfl⟩
  · by_cases ht : t1 = f.text <;>
      simp [widgetDispose, ftiSetText, hsb, hv, ht]
  · by_cases ht : dv = f.text <;>
      simp [widgetDispose, ftiSetText, hsb, hv, ht]
  · revert hne
    unfold widgetDispose ftiSetText
    by_cases ht : (if f.hasSourceBlock = true then
        match callValidator f.classV f.userV iv with
        | none => dv
        | some t1 => t1
      else iv) = f.text <;> simp [ht]

/-- C6 (witness): the success branch of the commit at the scenario field. -/
theorem widgetDispose_commit_spec_witness :
    (widgetDispose (doubleNumberField "21".toList) "21".toList
      "1".toList).1.text = "42".toList :=
  (widgetDispose_commit_spec.1 (doubleNumberField "21".toList) "21".toList
    "1".toList rfl).1 "42".toList rfl

/-- C10: `numberValidator` folds `O`/`o` to `0` and strips commas
(`numberPreprocess`), returns `null` exactly when the resulting string is
nonempty and fails to parse as a number, and otherwise returns the
canonical decimal string of the number parsed from the resulting string
(from "0" when it is empty); the empty string yields "0" and "1O" yields
"10". -/
theorem numberValidator_spec (text : JStr) :
    (numberValidator text = none ↔
      numberPreprocess text ≠ [] ∧
        jsParseFloat (numberPreprocess text) = none) ∧
    (∀ r, numberValidator text = some r →
      ∃ n, jsParseFloat (if numberPreprocess text = [] then ['0']
          else numberPreprocess text) = some n ∧
        r = jsNumToString n) ∧
    numberValidator [] = some ['0'] ∧
    numberValidator "1O".toList = some "10".toList := by
  have hpre : numberValidator text =
      match jsParseFloat (if numberPreprocess text = [] then ['0']
        else numberPreprocess text) with
      | none => none
      | some n => some (jsNumToString n) := rfl
  refine ⟨?_, ?_, rfl, rfl⟩
  · rw [hpre]
    by_cases hp : numberPreprocess text = []
    · rw [if_pos hp]
      simp [hp, show jsParseFloat ['0'] = some (.finite 0 0) from rfl]
    · rw [if_neg hp]
      cases hj : jsParseFloat (numberPreprocess text) <;> simp [hp, hj]
  · intro r hr
    rw [hpre] at hr
    cases hj : jsParseFloat (if numberPreprocess text = [] then ['0']
        else numberPreprocess text) with
    | none => rw [hj] at hr; cases hr
    | some n =>
      rw [hj] at hr
      exact ⟨n, rfl, by injection hr with h; exact h.symm⟩

/-- C10 (witness): the rejection characterization at the unparseable input
"abc". -/
theorem numberValidator_spec_witness :
    numberPreprocess "abc".toList ≠ [] ∧
      jsParseFloat (numberPreprocess "abc".toList) = none :=
  (numberValidator_spec "abc".toList).1.mp rfl

@[simp] theorem Cn.kind_mk (k : ConnKind) (h : Bool) (t : Option Blk) :
    (Cn.mk k h t).kind = k := rfl

@[simp] theorem Cn.hidden_mk (k : ConnKind) (h : Bool) (t : Option Blk) :
    (Cn.mk k h t).hidden = h := rfl

@[simp] theorem Cn.target_mk (k : ConnKind) (h : Bool) (t : Option Blk) :
    (Cn.mk k h t).target = t := rfl

@[simp] theorem Blk.idOf_mk (i : ℕ) (c : Bool) (cs : List Cn) :
    (Blk.mk i c cs).idOf = i := rfl

@[simp] theorem Blk.collapsed_mk (i : ℕ) (c : Bool) (cs : List Cn) :
    (Blk.mk i c cs).collapsed = c := rfl

@[simp] theorem Blk.conns_mk (i : ℕ) (c : Bool) (cs : List Cn) :
    (Blk.mk i c cs).conns = cs := rfl

theorem cnUnhideAll_kind (c : Cn) : (cnUnhideAll c).1.kind = c.kind := by
  cases c with
  | mk k h t =>
    cases t with
    | none => simp [cnUnhideAll]
    | some b =>
      simp only [cnUnhideAll]
      split <;> simp

theorem cnUnhideAll_hidden (c : Cn) : (cnUnhideAll c).1.hidden = false := by
  cases c with
  | mk k h t =>
    cases t with
    | none => simp [cnUnhideAll]
    | some b =>
      simp only [cnUnhideAll]
      split <;> simp

theorem cnUnhideAll_not_spiders (c : Cn) (h : c.kind.spiders = false) :
    cnUnhideAll c = (.mk c.kind false c.target, []) := by
  cases c with
  | mk k hid t =>
    simp only [Cn.kind_mk] at h
    cases t with
    | none => simp [cnUnhideAll]
    | some b => simp [cnUnhideAll, h]

theorem connsUnhideAll_collapsed (l : List Cn) :
    List.Forall₂
      (fun c0 c1 => if c0.kind = ConnKind.inputValue then c1 = c0
        else c1.kind = c0.kind ∧ c1.hidden = false)
      l (connsUnhideAll true l).1 := by
  induction l with
  | nil => simp [connsUnhideAll]
  | cons c rest ih =>
    simp only [connsUnhideAll]
    by_cases hk : c.kind = ConnKind.inputValue
    · exact List.Forall₂.cons (by simp [hk]) ih
    · refine List.Forall₂.cons ?_ ih
      simp [hk, cnUnhideAll_kind, cnUnhideAll_hidden]

mutual
/-- A nonempty visited forest below a connection contains a leaf. -/
theorem cn_leaf_exists : ∀ c : Cn, cnVisitedB c ≠ [] →
    (cnVisitedB c).filter blkIsLeaf ≠ []
  | .mk k h none => by simp [cnVisitedB]
  | .mk k h (some b) => by
    intro hne
    simp only [cnVisitedB] at hne ⊢
    by_cases hs : k.spiders
    · simp only [if_pos hs] at hne ⊢
      by_cases hleaf : blkIsLeaf b
      · simp [List.filter_cons, hleaf]
      · have hb : blkVisitedB b ≠ [] := by
          simpa [blkIsLeaf, List.isEmpty_iff] using hleaf
        have hrec := blk_leaf_exists b hb
        simpa [List.filter_cons, hleaf] using hrec
    · simp [hs] at hne

theorem blk_leaf_exists : ∀ b : Blk, blkVisitedB b ≠ [] →
    (blkVisitedB b).filter blkIsLeaf ≠ []
  | .mk i col conns => by
    intro h
    simpa [blkVisitedB] using
      conns_leaf_exists col conns (by simpa [blkVisitedB] using h)

theorem conns_leaf_exists : ∀ (col : Bool) (l : List Cn),
    connsVisitedB col l ≠ [] → (connsVisitedB col l).filter blkIsLeaf ≠ []
  | col, [] => by simp [connsVisitedB]
  | col, c :: rest => by
    intro h
    simp only [connsVisitedB, List.filter_append] at h ⊢
    by_cases hcond : col = true ∧ c.kind = ConnKind.inputValue
    · rw [if_pos hcond] at h ⊢
      have := conns_leaf_exists col rest (by simpa using h)
      simpa using this
    · rw [if_neg hcond] at h ⊢
      by_cases hA : cnVisitedB c = []
      · rw [hA] at h ⊢
        have := conns_leaf_exists col rest (by simpa using h)
        simpa using this
      · have := cn_leaf_exists c hA
        intro heq
        exact this (List.append_eq_nil.mp heq).1
end

mutual
/-- The render list returned by `unhideAll` is exactly the ids of the
visited blocks that are leaves of the visited subtree, in visit order. -/
theorem cn_render_eq : ∀ c : Cn,
    (cnUnhideAll c).2 = ((cnVisitedB c).filter blkIsLeaf).map Blk.idOf
  | .mk k h none => by simp [cnUnhideAll, cnVisitedB]
  | .mk k h (some b) => by
    by_cases hs : k.spiders
    · have hb := blk_render_eq b
      simp only [cnUnhideAll, cnVisitedB, if_pos hs]
      by_cases hleaf : blkIsLeaf b
      · have hbv : blkVisitedB b = [] := by
          simpa [blkIsLeaf, List.isEmpty_iff] using hleaf
        simp [hb, hbv, List.filter_cons, hleaf]
      · have hbv : blkVisitedB b ≠ [] := by
          simpa [blkIsLeaf, List.isEmpty_iff] using hleaf
        have hfil := blk_leaf_exists b hbv
        rw [hb]
        simp only [List.filter_cons, hleaf]
        rw [if_neg (by simpa [List.isEmpty_iff] using hfil)]
        simp [hleaf]
    · simp [cnUnhideAll, cnVisitedB, hs]

theorem blk_render_eq : ∀ b : Blk,
    (blkUnhideAll b).2 = ((blkVisitedB b).filter blkIsLeaf).map Blk.idOf
  | .mk i col conns => by
    simpa [blkUnhideAll, blkVisitedB] using conns_render_eq col conns

theorem conns_render_eq : ∀ (col : Bool) (l : List Cn),
    (connsUnhideAll col l).2 =
      ((connsVisitedB col l).filter blkIsLeaf).map Blk.idOf
  | col, [] => by simp [connsUnhideAll, connsVisitedB]
  | col, c :: rest => by
    by_cases hcond : col = true ∧ c.kind = ConnKind.inputValue
    · obtain ⟨hcol, hk⟩ := hcond
      subst hcol
      simp [connsUnhideAll, connsVisitedB, hk, conns_render_eq true rest,
        List.filter_append]
    · simp [connsUnhideAll, connsVisitedB, hcond, conns_render_eq col rest,
        cn_render_eq c, List.filter_append]
end

/-- C4: `unhideAll` unhides the connection itself and preserves its kind;
for kinds other than input-value/next-statement it recurses nowhere and
returns no blocks; a collapsed attached block keeps its input connections
untouched (hidden) while its other connections are unhidden; the returned
render list is exactly the leaf blocks of the visited subtree; and when the
recursion below the directly-attached block visits nothing, that block is
the single entry. -/
theorem unhideAll_spec (c : Cn) :
    ((cnUnhideAll c).1.kind = c.kind ∧ (cnUnhideAll c).1.hidden = false) ∧
    (c.kind.spiders = false → cnUnhideAll c = (.mk c.kind false c.target, [])) ∧
    (∀ b, c.target = some b → c.kind.spiders = true → b.collapsed = true →
      ∃ cs', (cnUnhideAll c).1.target = some (.mk b.idOf true cs') ∧
        List.Forall₂
          (fun c0 c1 => if c0.kind = ConnKind.inputValue then c1 = c0
            else c1.kind = c0.kind ∧ c1.hidden = false)
          b.conns cs') ∧
    ((cnUnhideAll c).2 = ((cnVisitedB c).filter blkIsLeaf).map Blk.idOf) ∧
    (∀ b, c.target = some b → c.kind.spiders = true → blkVisitedB b = [] →
      (cnUnhideAll c).2 = [b.idOf]) := by
  refine ⟨⟨cnUnhideAll_kind c, cnUnhideAll_hidden c⟩,
    fun h => cnUnhideAll_not_spiders c h, ?_, cn_render_eq c, ?_⟩
  · intro b htgt hs hcol
    cases c with
    | mk k hid t =>
      simp only [Cn.target_mk] at htgt
      subst htgt
      simp only [Cn.kind_mk] at hs
      cases b with
      | mk i bcol conns =>
        simp only [Blk.collapsed_mk] at hcol
        subst hcol
        refine ⟨(connsUnhideAll true conns).1, ?_, ?_⟩
        · simp [cnUnhideAll, hs, blkUnhideAll]
        · simpa using connsUnhideAll_collapsed conns
  · intro b htgt hs hbv
    have h4 := cn_render_eq c
    cases c with
    | mk k hid t =>
      simp only [Cn.target_mk] at htgt
      subst htgt
      simp only [Cn.kind_mk] at hs
      have hleaf : blkIsLeaf b := by simp [blkIsLeaf, hbv]
      rw [h4]
      simp [cnVisitedB, hs, hbv, List.filter_cons, hleaf]

/-- C4 (witness): unhiding an input-value connection attached to a
collapsed block with no further attachments returns that block as the one
leaf. -/
theorem unhideAll_spec_witness :
    (cnUnhideAll (Cn.mk .inputValue true (some (Blk.mk 7 true
      [Cn.mk .inputValue true none, Cn.mk .nextStatement true none])))).2
      = [7] :=
  (unhideAll_spec _).2.2.2.2
    (Blk.mk 7 true [Cn.mk .inputValue true none, Cn.mk .nextStatement true none])
    rfl rfl rfl

theorem goodAcc_step (px py maxR : ℤ) (base : DBConn → Bool)
    (seen : List DBConn) (acc : Option DBConn × ℤ) (c : DBConn)
    (h : GoodAcc px py maxR base seen acc) :
    GoodAcc px py maxR base (seen ++ [c])
      (searchStep px py maxR base acc c) := by
  rcases h with ⟨hacc, hseen⟩ | ⟨cand, pre, post, hseen, hacc, hleg, hpre, hmin⟩
  · subst hacc
    simp only [searchStep]
    split
    case isTrue hc =>
      simp only [Option.isNone_none, Bool.true_or, Bool.and_true,
        Bool.and_eq_true, decide_eq_true_eq] at hc
      refine Or.inr ⟨c, seen, [], rfl, rfl, ⟨hc.1, hc.2⟩, ?_, ?_⟩
      · intro c2 h2 hl2
        exact absurd hl2 (hseen c2 h2)
      · intro c2 h2 hl2
        rcases List.mem_append.mp h2 with h3 | h3
        · exact absurd hl2 (hseen c2 h3)
        · rw [List.mem_singleton.mp h3]
    case isFalse hc =>
      refine Or.inl ⟨rfl, fun c2 h2 => ?_⟩
      rcases List.mem_append.mp h2 with h3 | h3
      · exact hseen c2 h3
      · rw [List.mem_singleton.mp h3]
        intro hlc
        apply hc
        simp only [Option.isNone_none, Bool.true_or, Bool.and_true,
          Bool.and_eq_true, decide_eq_true_eq]
        exact ⟨hlc.1, hlc.2⟩
  · subst hacc
    simp only [searchStep]
    split
    case isTrue hc =>
      simp only [Option.isNone_some, Bool.false_or, Bool.and_eq_true,
        decide_eq_true_eq] at hc
      have hlt : distSq px py c < distSq px py cand := hc.2
      refine Or.inr ⟨c, seen, [], rfl, rfl, ⟨hc.1.1, hc.1.2⟩, ?_, ?_⟩
      · intro c2 h2 hl2
        exact lt_of_lt_of_le hlt (hmin c2 h2 hl2)
      · intro c2 h2 hl2
        rcases List.mem_append.mp h2 with h3 | h3
        · exact le_of_lt (lt_of_lt_of_le hlt (hmin c2 h3 hl2))
        · rw [List.mem_singleton.mp h3]
    case isFalse hc =>
      refine Or.inr ⟨cand, pre, post ++ [c], by rw [hseen]; simp, rfl, hleg,
        hpre, ?_⟩
      intro c2 h2 hl2
      rcases List.mem_append.mp h2 with h3 | h3
      · exact hmin c2 h3 hl2
      · rw [List.mem_singleton.mp h3] at hl2 ⊢
        by_contra hlt2
        apply hc
        simp only [Option.isNone_some, Bool.false_or, Bool.and_eq_true,
          decide_eq_true_eq]
        exact ⟨⟨hl2.1, hl2.2⟩, not_le.mp hlt2⟩

theorem searchForClosest_good (px py maxR : ℤ) (base : DBConn → Bool) :
    ∀ (rest seen : List DBConn) (acc : Option DBConn × ℤ),
    GoodAcc px py maxR base seen acc →
    GoodAcc px py maxR base (seen ++ rest)
      (rest.foldl (searchStep px py maxR base) acc)
  | [], seen, acc, h => by simpa using h
  | c :: rest, seen, acc, h => by
    have h2 := goodAcc_step px py maxR base seen acc c h
    have h3 := searchForClosest_good px py maxR base rest (seen ++ [c]) _ h2
    simpa using h3

/-- C1: `closest` searches the opposite-kind index around the connection's
drag-corrected position `(cx + dx, cy + dy)`; it returns `none` exactly
when no legal candidate lies within `maxRadius`, and otherwise the returned
candidate is legal, lies within Euclidean distance `maxRadius`, has minimal
Euclidean distance among all legal in-range candidates, and is the first
index entry achieving that minimum (every earlier legal entry is strictly
farther), so exact ties go to the earlier entry. -/
theorem closest_spec (cx cy dx dy maxR : ℤ) (base : DBConn → Bool)
    (db : List DBConn) (hr : 0 ≤ maxR) :
    ((closest cx cy dx dy maxR base db).1 = none →
      ∀ cand ∈ db, ¬ legalWithin (cx + dx) (cy + dy) maxR base cand) ∧
    (∀ cand, (closest cx cy dx dy maxR base db).1 = some cand →
      legalWithin (cx + dx) (cy + dy) maxR base cand ∧
      Real.sqrt ((distSq (cx + dx) (cy + dy) cand : ℤ) : ℝ) ≤ (maxR : ℝ) ∧
      (∀ c2 ∈ db, legalWithin (cx + dx) (cy + dy) maxR base c2 →
        Real.sqrt ((distSq (cx + dx) (cy + dy) cand : ℤ) : ℝ) ≤
          Real.sqrt ((distSq (cx + dx) (cy + dy) c2 : ℤ) : ℝ)) ∧
      ∃ pre post, db = pre ++ cand :: post ∧
        ∀ c2 ∈ pre, legalWithin (cx + dx) (cy + dy) maxR base c2 →
          distSq (cx + dx) (cy + dy) cand < distSq (cx + dx) (cy + dy) c2) := by
  have hgood : GoodAcc (cx + dx) (cy + dy) maxR base db
      (closest cx cy dx dy maxR base db) := by
    have h0 : GoodAcc (cx + dx) (cy + dy) maxR base []
        ((none : Option DBConn), maxR * maxR) := Or.inl ⟨rfl, by simp⟩
    have h1 := searchForClosest_good (cx + dx) (cy + dy) maxR base db [] _ h0
    simpa [closest, searchForClosest] using h1
  constructor
  · intro hnone cand hmem hleg
    rcases hgood with ⟨_, hseen⟩ | ⟨cand2, pre, post, _, hacc, _, _, _⟩
    · exact hseen cand hmem hleg
    · rw [hacc] at hnone
      cases hnone
  · intro cand hsome
    rcases hgood with ⟨hacc, _⟩ | ⟨cand2, pre, post, hdb, hacc, hleg, hpre, hmin⟩
    · rw [hacc] at hsome
      cases hsome
    · rw [hacc] at hsome
      have hcand : cand2 = cand := by injection hsome
      subst hcand
      have hbound : Real.sqrt ((distSq (cx + dx) (cy + dy) cand2 : ℤ) : ℝ) ≤
          (maxR : ℝ) := by
        have hle : ((distSq (cx + dx) (cy + dy) cand2 : ℤ) : ℝ) ≤
            ((maxR : ℤ) : ℝ) * ((maxR : ℤ) : ℝ) := by
          have := hleg.2
          exact_mod_cast this
        calc Real.sqrt ((distSq (cx + dx) (cy + dy) cand2 : ℤ) : ℝ)
            ≤ Real.sqrt (((maxR : ℤ) : ℝ) * ((maxR : ℤ) : ℝ)) :=
              Real.sqrt_le_sqrt hle
          _ = (maxR : ℝ) := Real.sqrt_mul_self (by exact_mod_cast hr)
      refine ⟨hleg, hbound, ?_, pre, post, hdb, hpre⟩
      intro c2 h2 hl2
      exact Real.sqrt_le_sqrt (by exact_mod_cast hmin c2 h2 hl2)

/-- C1 (witness): a probe at x = 6 among index entries at x = 0, 10, 100
with radius 20 returns a legal in-range candidate (the entry at x = 10). -/
theorem closest_spec_witness :
    legalWithin (6 + 0) (0 + 0) 20 (fun _ => true) ⟨10, 0⟩ :=
  ((closest_spec 6 0 0 0 20 (fun _ => true) [⟨0, 0⟩, ⟨10, 0⟩, ⟨100, 0⟩]
    (by decide)).2 ⟨10, 0⟩ rfl).1

end DoodleBlocks
